import Mathlib

/-!
Shallow embedding of the SillyTavern-Nicknames extension core
(the nickname resolution engine and the rename migration handlers),
translated from the latest revision of the source (the file exporting
ContextLevel and registering the rename events).

Maps are modelled with JavaScript object semantics: string keys,
update-in-place keeps position, new keys append at the end, property
access with an undefined key coerces the key to the string "undefined",
and truthiness of a string value means defined and non-empty.
-/

namespace Nicknames

/-- Association map with JavaScript object key ordering. -/
abbrev AMap (α : Type) : Type := List (String × α)

/-- Property read: first binding for the key, if any. -/
def mfind {α : Type} : AMap α → String → Option α
  | [], _ => none
  | (k2, v) :: rest, k => if k2 = k then some v else mfind rest k

/-- Property write: update in place if the key exists, else append. -/
def mset {α : Type} : AMap α → String → α → AMap α
  | [], k, v => [(k, v)]
  | (k2, v2) :: rest, k, v =>
    if k2 = k then (k2, v) :: rest else (k2, v2) :: mset rest k v

/-- Property delete: removes the binding for the key, keeps the rest. -/
def merase {α : Type} : AMap α → String → AMap α
  | [], _ => []
  | (k2, v2) :: rest, k => if k2 = k then merase rest k else (k2, v2) :: merase rest k

/-- All values stored in the map. -/
def mvals {α : Type} (m : AMap α) : List α :=
  m.map Prod.snd

/-- Truthy read: a string property that is defined and non-empty. -/
def tfind (m : AMap String) (k : String) : Option String :=
  match mfind m k with
  | some v => if v = "" then none else some v
  | none => none

/-- Mapping of persona keys and character keys to nicknames, the shape
used both for the global mappings and for the chat metadata mappings. -/
structure NicknameMappings where
  personas : AMap String
  chars : AMap String
deriving DecidableEq

/-- Per-character entry of the char-level mappings: persona nicknames
belonging to one character. -/
structure CharEntry where
  personas : AMap String
deriving DecidableEq

/-- Settings object containing nickname mappings (settings.mappings). -/
structure NicknameSettings where
  char : AMap CharEntry
  global : NicknameMappings
deriving DecidableEq

/-- The context levels at which nicknames can be set. -/
inductive ContextLevel where
  | GLOBAL
  | CHAR
  | CHAT
  | NONE
deriving DecidableEq

/-- The string values of the ContextLevel enum, in declaration order. -/
def contextLevelValues : List String := ["global", "char", "chat", "none"]

/-- Result of a nickname lookup: the level at which the nickname is set
and the nickname itself (absent when reading an unset entry). -/
structure NicknameResult where
  context : ContextLevel
  name : Option String
deriving DecidableEq

/-- The two errors thrown by handleNickname. -/
inductive HandleError where
  | unknownContext (ctx : String)
  | setWithoutContext
deriving DecidableEq

/-- What one handleNickname call reports back: the returned value (none
models the null returns) and whether a toastr warning fired. -/
structure HandleOut where
  result : Option NicknameResult
  warned : Bool
deriving DecidableEq

/-- The environment queried through getContext and user_avatar: the
persona key, the optional character key, and the two default names. -/
structure Env where
  personaKey : String
  charKey : Option String
  name1 : String
  name2 : String
deriving DecidableEq

/-- Mutable state touched by the engine: the settings object, the chat
metadata nicknames entry, and counters for the two debounced saves. -/
structure St where
  settings : NicknameSettings
  chatNicknames : Option NicknameMappings
  chatSaves : Nat
  settingsSaves : Nat
deriving DecidableEq

/-- The two roles a nickname can be handled for. -/
inductive Role where
  | user
  | char
deriving DecidableEq

/-- JavaScript property-key coercion: an undefined key reads and writes
the property named "undefined". -/
def keyOf : Option String → String
  | some s => s
  | none => "undefined"

/-- Role-appropriate identity key, as selected in the chat and global
branches: character key for role char, persona key for role user. -/
def roleKey (type : Role) (env : Env) : String :=
  match type with
  | .char => keyOf env.charKey
  | .user => env.personaKey

/-- Default display name per role: name2 for char, name1 for user. -/
def defaultName (type : Role) (env : Env) : String :=
  match type with
  | .char => env.name2
  | .user => env.name1

/-- Whitespace characters removed by the JavaScript trim call. -/
def jsWs (c : Char) : Bool :=
  c == ' ' || c == '\t' || c == '\n' || c == '\r'

/-- Model of the JavaScript String trim method: drop leading and
trailing whitespace. -/
def jsTrim (s : String) : String :=
  String.mk (((s.data.dropWhile jsWs).reverse.dropWhile jsWs).reverse)

/-- Trim the value and normalize a falsy result to absent, mirroring
that every later test of the value is a truthiness test. -/
def normValue : Option String → Option String
  | none => none
  | some s => if jsTrim s = "" then none else some (jsTrim s)

/-- JavaScript truthiness of the forContext argument. -/
def ctxTruthy : Option String → Bool
  | none => false
  | some s => !(s == "")

/-- The empty mappings object assigned by the chat branch when the chat
metadata holds no nicknames entry yet. -/
def emptyMappings : NicknameMappings := { personas := [], chars := [] }

/-- The chat-context branch of handleNickname. Returns the early-return
value, if any, and the state after the branch. -/
def chatStep (type : Role) (value : Option String) (ctxGiven reset : Bool)
    (env : Env) (st : St) : Option HandleOut × St :=
  let mappings := st.chatNicknames.getD emptyMappings
  let st1 : St := { st with chatNicknames := some mappings }
  let key := roleKey type env
  if reset then
    let m2 := match type with
      | .char => { mappings with chars := merase mappings.chars key }
      | .user => { mappings with personas := merase mappings.personas key }
    (some { result := none, warned := false },
     { st1 with chatNicknames := some m2, chatSaves := st1.chatSaves + 1 })
  else
    match value with
    | some v =>
      let m2 := match type with
        | .char => { mappings with chars := mset mappings.chars key v }
        | .user => { mappings with personas := mset mappings.personas key v }
      (some { result := some { context := .CHAT, name := some v }, warned := false },
       { st1 with chatNicknames := some m2, chatSaves := st1.chatSaves + 1 })
    | none =>
      let raw := match type with
        | .char => mfind mappings.chars key
        | .user => mfind mappings.personas key
      let hit := match type with
        | .char => tfind mappings.chars key
        | .user => tfind mappings.personas key
      if ctxGiven || hit.isSome then
        (some { result := some { context := .CHAT, name := raw }, warned := false }, st1)
      else
        (none, st1)

/-- The char-context branch of handleNickname. -/
def charStep (type : Role) (value : Option String) (ctxGiven reset : Bool)
    (env : Env) (st : St) : Option HandleOut × St :=
  if type = Role.char ∧ (value.isSome ∨ reset) then
    (some { result := none, warned := true }, st)
  else
    let ck := keyOf env.charKey
    let nk := env.personaKey
    if reset then
      let newChar := match mfind st.settings.char ck with
        | some e => mset st.settings.char ck { e with personas := merase e.personas nk }
        | none => st.settings.char
      (some { result := none, warned := false },
       { st with settings := { st.settings with char := newChar },
                 settingsSaves := st.settingsSaves + 1 })
    else
      match value with
      | some v =>
        let entry := (mfind st.settings.char ck).getD { personas := [] }
        let newChar := mset st.settings.char ck
          { entry with personas := mset entry.personas nk v }
        (some { result := some { context := .CHAR, name := some v }, warned := false },
         { st with settings := { st.settings with char := newChar },
                   settingsSaves := st.settingsSaves + 1 })
      | none =>
        let raw := match mfind st.settings.char ck with
          | some e => mfind e.personas nk
          | none => none
        let hit := match raw with
          | some s => if s = "" then none else some s
          | none => none
        if ctxGiven || hit.isSome then
          (some { result := some { context := .CHAR, name := raw }, warned := false }, st)
        else
          (none, st)

/-- The global-context branch of handleNickname. -/
def globalStep (type : Role) (value : Option String) (ctxGiven reset : Bool)
    (env : Env) (st : St) : Option HandleOut × St :=
  let key := roleKey type env
  if reset then
    let g2 := match type with
      | .char => { st.settings.global with chars := merase st.settings.global.chars key }
      | .user => { st.settings.global with personas := merase st.settings.global.personas key }
    (some { result := none, warned := false },
     { st with settings := { st.settings with global := g2 },
               settingsSaves := st.settingsSaves + 1 })
  else
    match value with
    | some v =>
      let g2 := match type with
        | .char => { st.settings.global with chars := mset st.settings.global.chars key v }
        | .user => { st.settings.global with personas := mset st.settings.global.personas key v }
      (some { result := some { context := .GLOBAL, name := some v }, warned := false },
       { st with settings := { st.settings with global := g2 },
                 settingsSaves := st.settingsSaves + 1 })
    | none =>
      let raw := match type with
        | .char => mfind st.settings.global.chars key
        | .user => mfind st.settings.global.personas key
      let hit := match type with
        | .char => tfind st.settings.global.chars key
        | .user => tfind st.settings.global.personas key
      if ctxGiven || hit.isSome then
        (some { result := some { context := .GLOBAL, name := raw }, warned := false }, st)
      else
        (none, st)

/-- Handles nickname settings for the given type, in the given context,
translated from the exported handleNickname function: validation, then
the chat, char and global branches in order, then the default result. -/
def handleNickname (type : Role) (value0 : Option String) (forContext : Option String)
    (reset : Bool) (env : Env) (st : St) : Except HandleError (HandleOut × St) :=
  let value := normValue value0
  if ctxTruthy forContext ∧ ¬ (forContext.getD "") ∈ contextLevelValues then
    .error (.unknownContext (forContext.getD ""))
  else if ¬ ctxTruthy forContext ∧ (value.isSome ∨ reset) then
    .error .setWithoutContext
  else
    let ctxGiven := ctxTruthy forContext
    match (if forContext = some "chat" ∨ ¬ ctxTruthy forContext then
             chatStep type value ctxGiven reset env st
           else (none, st)) with
    | (some out, st1) => .ok (out, st1)
    | (none, st1) =>
      match (if forContext = some "char" ∨ ¬ ctxTruthy forContext then
               charStep type value ctxGiven reset env st1
             else (none, st1)) with
      | (some out, st2) => .ok (out, st2)
      | (none, st2) =>
        match (if forContext = some "global" ∨ ¬ ctxTruthy forContext then
                 globalStep type value ctxGiven reset env st2
               else (none, st2)) with
        | (some out, st3) => .ok (out, st3)
        | (none, st3) =>
          .ok ({ result := some { context := .NONE, name := some (defaultName type env) },
                 warned := false }, st3)

/-- Migration of one string-valued map in the rename handlers: when the
old key holds a truthy value, copy it to the new key and delete the old
binding; otherwise leave the map untouched. -/
def migrateChars (oldKey newKey : String) (m : AMap String) : AMap String :=
  match tfind m oldKey with
  | some v => merase (mset m newKey v) oldKey
  | none => m

/-- Migration of the char-level map: when an entry exists under the old
key, move the whole sub-map to the new key, deleting the old binding. -/
def migrateCharMap (oldKey newKey : String) (m : AMap CharEntry) : AMap CharEntry :=
  match mfind m oldKey with
  | some e => merase (mset m newKey e) oldKey
  | none => m

/-- The CHARACTER_RENAMED event handler: migrates the global chars map
and the char-level map, migrates and saves the loaded chat mappings when
they match, and always triggers one settings save at the end. -/
def renameHandler (oldKey newKey : String) (st : St) : St :=
  let global2 : NicknameMappings :=
    { st.settings.global with chars := migrateChars oldKey newKey st.settings.global.chars }
  let char2 := migrateCharMap oldKey newKey st.settings.char
  let chatPair : Option NicknameMappings × Nat :=
    match st.chatNicknames with
    | some m =>
      match tfind m.chars oldKey with
      | some _ => (some { m with chars := migrateChars oldKey newKey m.chars }, st.chatSaves + 1)
      | none => (some m, st.chatSaves)
    | none => (none, st.chatSaves)
  { settings := { char := char2, global := global2 },
    chatNicknames := chatPair.1,
    chatSaves := chatPair.2,
    settingsSaves := st.settingsSaves + 1 }

/-- Saved metadata of a historical chat message head: the nicknames
entry, when present. -/
structure PastChatMeta where
  nicknames : Option NicknameMappings
deriving DecidableEq

/-- One entry of a historical chat array; chat_metadata is absent when
the stored field is missing or not an object. -/
structure PastChatEntry where
  chat_metadata : Option PastChatMeta
deriving DecidableEq

/-- The CHARACTER_RENAMED_IN_PAST_CHAT event handler: edits the passed
chat structure in place and triggers no save of any kind. -/
def pastRenameHandler (oldKey newKey : String) (st : St)
    (chat : List PastChatEntry) : St × List PastChatEntry :=
  match chat with
  | [] => (st, chat)
  | first :: rest =>
    match first.chat_metadata with
    | none => (st, first :: rest)
    | some meta =>
      match meta.nicknames with
      | none => (st, first :: rest)
      | some m =>
        match tfind m.chars oldKey with
        | none => (st, first :: rest)
        | some _ =>
          let m2 : NicknameMappings := { m with chars := migrateChars oldKey newKey m.chars }
          let meta2 : PastChatMeta := { nicknames := some m2 }
          (st, { chat_metadata := some meta2 } :: rest)

/-- All nickname strings stored in a NicknameMappings object. -/
def mappingsStrings (m : NicknameMappings) : List String :=
  mvals m.personas ++ mvals m.chars

/-- All nickname strings stored in the char-level map. -/
def charMapStrings (m : AMap CharEntry) : List String :=
  (m.map (fun p => mvals p.2.personas)).flatten

/-- All nickname strings stored anywhere in the state. -/
def storedStrings (st : St) : List String :=
  mappingsStrings st.settings.global ++ charMapStrings st.settings.char ++
    (match st.chatNicknames with
     | some m => mappingsStrings m
     | none => [])

/-- State after ensuring the chat nicknames mapping exists, which is
exactly what entering the chat branch does before anything else. -/
def chatEnsure (st : St) : St :=
  { st with chatNicknames := some (st.chatNicknames.getD emptyMappings) }

/-- Scopes at which a set round-trips for a role: all three for user,
global and chat for char. -/
def validScopeFor (role : Role) (s : String) : Prop :=
  (role = Role.user ∧ s ∈ ["global", "char", "chat"]) ∨
  (role = Role.char ∧ s ∈ ["global", "chat"])

/-- The ContextLevel a valid scope string denotes. -/
def scopeLevel (s : String) : ContextLevel :=
  if s = "global" then .GLOBAL
  else if s = "char" then .CHAR
  else if s = "chat" then .CHAT
  else .NONE

/-- Role-selected sub-map, chars for role char and personas for role
user, as used by both the chat and the global branches. -/
def roleSubmap (t : Role) (m : NicknameMappings) : AMap String :=
  match t with
  | .char => m.chars
  | .user => m.personas

/-- The raw lookup performed by the char branch on a pure read: the
persona nickname stored under the current character key, for any role. -/
def charScopeRaw (env : Env) (st : St) : Option String :=
  match mfind st.settings.char (keyOf env.charKey) with
  | some e => mfind e.personas env.personaKey
  | none => none

/-- Sample environment with persona P, active character C and default
names User and Char. -/
def env1 : Env := { personaKey := "P", charKey := some "C", name1 := "User", name2 := "Char" }

/-- Sample environment with no active character. -/
def envNoChar : Env := { personaKey := "P", charKey := none, name1 := "User", name2 := "Char" }

/-- Fully empty state: empty settings and no chat metadata entry. -/
def emptySt : St :=
  { settings := { char := [], global := { personas := [], chars := [] } },
    chatNicknames := none, chatSaves := 0, settingsSaves := 0 }

/-- State with the C nickname set at char level for persona P, a global
chars entry for C, and an empty chat mapping already present. -/
def stCharScoped : St :=
  { settings := { char := [("C", { personas := [("P", "Bar")] })],
                  global := { personas := [], chars := [("C", "Glob")] } },
    chatNicknames := some emptyMappings, chatSaves := 0, settingsSaves := 0 }

/-- Historical chat entry wrapping one nickname mapping in saved metadata. -/
def pastEntry (m : NicknameMappings) : PastChatEntry :=
  { chat_metadata := some { nicknames := some m } }

/-- Historical conversation whose saved mapping has chars A mapped to Baz. -/
def pastChatA : List PastChatEntry :=
  [{ chat_metadata := some { nicknames := some { personas := [], chars := [("A", "Baz")] } } }]

/-- The historical conversation after the A to B migration. -/
def pastChatB : List PastChatEntry :=
  [{ chat_metadata := some { nicknames := some { personas := [], chars := [("B", "Baz")] } } }]

theorem mfind_mset_self {α : Type} (m : AMap α) (k : String) (v : α) :
    mfind (mset m k v) k = some v := by
  induction m with
  | nil => simp [mset, mfind]
  | cons p rest ih =>
    obtain ⟨k2, v2⟩ := p
    by_cases h : k2 = k
    · simp [mset, h, mfind]
    · simp [mset, h, mfind, ih]

theorem mfind_mset_ne {α : Type} (m : AMap α) (k k2 : String) (v : α) (h : k2 ≠ k) :
    mfind (mset m k v) k2 = mfind m k2 := by
  induction m with
  | nil => simp [mset, mfind, Ne.symm h]
  | cons p rest ih =>
    obtain ⟨k3, v3⟩ := p
    by_cases h3 : k3 = k
    · subst h3
      simp [mset, mfind, Ne.symm h]
    · simp [mset, mfind, h3, ih]

theorem mfind_merase_self {α : Type} (m : AMap α) (k : String) :
    mfind (merase m k) k = none := by
  induction m with
  | nil => simp [merase, mfind]
  | cons p rest ih =>
    obtain ⟨k2, v2⟩ := p
    by_cases h : k2 = k
    · simpa [merase, h] using ih
    · simp [merase, mfind, h, ih]

theorem mfind_merase_ne {α : Type} (m : AMap α) (k k2 : String) (h : k2 ≠ k) :
    mfind (merase m k) k2 = mfind m k2 := by
  induction m with
  | nil => simp [merase, mfind]
  | cons p rest ih =>
    obtain ⟨k3, v3⟩ := p
    by_cases h3 : k3 = k
    · subst h3
      simp [merase, mfind, Ne.symm h, ih]
    · simp [merase, mfind, h3, ih]

theorem handle_chat_scoped_read (t : Role) (env : Env) (st : St) :
    handleNickname t none (some "chat") false env st =
      .ok ({ result := some { context := .CHAT,
                              name := mfind (roleSubmap t (st.chatNicknames.getD emptyMappings))
                                            (roleKey t env) },
             warned := false }, chatEnsure st) := by
  cases t <;> rfl

theorem handle_char_scoped_read (t : Role) (env : Env) (st : St) :
    handleNickname t none (some "char") false env st =
      .ok ({ result := some { context := .CHAR, name := charScopeRaw env st },
             warned := false }, st) := by
  cases t <;> rfl

theorem handle_global_scoped_read (t : Role) (env : Env) (st : St) :
    handleNickname t none (some "global") false env st =
      .ok ({ result := some { context := .GLOBAL,
                              name := mfind (roleSubmap t st.settings.global) (roleKey t env) },
             warned := false }, st) := by
  cases t <;> rfl

theorem chatStep_read_snd (t : Role) (cg : Bool) (env : Env) (st : St) :
    (chatStep t none cg false env st).2 = chatEnsure st := by
  cases t <;> simp [chatStep, chatEnsure] <;> split <;> rfl

theorem charStep_read_snd (t : Role) (cg : Bool) (env : Env) (st : St) :
    (charStep t none cg false env st).2 = st := by
  cases t <;> simp [charStep] <;> split <;> rfl

theorem globalStep_read_snd (t : Role) (cg : Bool) (env : Env) (st : St) :
    (globalStep t none cg false env st).2 = st := by
  cases t <;> simp [globalStep] <;> split <;> rfl

theorem handle_unscoped_read (role : Role) (env : Env) (st : St) :
    ∃ out, handleNickname role none none false env st = .ok (out, chatEnsure st) := by
  rcases ho1 : (chatStep role none false false env st).1 with _ | out1
  case some =>
    have h1 : chatStep role none false false env st = (some out1, chatEnsure st) :=
      Prod.ext ho1 (chatStep_read_snd role false env st)
    exact ⟨out1, by simp [handleNickname, ctxTruthy, normValue, h1]⟩
  case none =>
  have h1 : chatStep role none false false env st = (none, chatEnsure st) :=
    Prod.ext ho1 (chatStep_read_snd role false env st)
  rcases hc : (charStep role none false false env (chatEnsure st)).1 with _ | out2
  case some =>
    have h2 : charStep role none false false env (chatEnsure st) = (some out2, chatEnsure st) :=
      Prod.ext hc (charStep_read_snd role false env (chatEnsure st))
    exact ⟨out2, by simp [handleNickname, ctxTruthy, normValue, h1, h2]⟩
  case none =>
  have h2 : charStep role none false false env (chatEnsure st) = (none, chatEnsure st) :=
    Prod.ext hc (charStep_read_snd role false env (chatEnsure st))
  rcases hg : (globalStep role none false false env (chatEnsure st)).1 with _ | out3
  case some =>
    have h3 : globalStep role none false false env (chatEnsure st) = (some out3, chatEnsure st) :=
      Prod.ext hg (globalStep_read_snd role false env (chatEnsure st))
    exact ⟨out3, by simp [handleNickname, ctxTruthy, normValue, h1, h2, h3]⟩
  case none =>
  have h3 : globalStep role none false false env (chatEnsure st) = (none, chatEnsure st) :=
    Prod.ext hg (globalStep_read_snd role false env (chatEnsure st))
  exact ⟨{ result := some { context := .NONE, name := some (defaultName role env) },
           warned := false },
         by simp [handleNickname, ctxTruthy, normValue, h1, h2, h3]⟩

theorem jsTrim_nyx : jsTrim "Nyx" = "Nyx" := by decide

theorem roundtrip_chat (t : Role) (env : Env) (st : St) :
    ∃ st2, handleNickname t (some "Nyx") (some "chat") false env st =
        .ok ({ result := some { context := .CHAT, name := some "Nyx" }, warned := false }, st2) ∧
      handleNickname t none (some "chat") false env st2 =
        .ok ({ result := some { context := .CHAT, name := some "Nyx" }, warned := false }, st2) := by
  cases t with
  | user =>
    refine ⟨_, rfl, ?_⟩
    rw [handle_chat_scoped_read]
    simp [roleSubmap, roleKey, chatEnsure, mfind_mset_self, jsTrim_nyx]
  | char =>
    refine ⟨_, rfl, ?_⟩
    rw [handle_chat_scoped_read]
    simp [roleSubmap, roleKey, chatEnsure, mfind_mset_self, jsTrim_nyx]

theorem roundtrip_global (t : Role) (env : Env) (st : St) :
    ∃ st2, handleNickname t (some "Nyx") (some "global") false env st =
        .ok ({ result := some { context := .GLOBAL, name := some "Nyx" }, warned := false }, st2) ∧
      handleNickname t none (some "global") false env st2 =
        .ok ({ result := some { context := .GLOBAL, name := some "Nyx" }, warned := false }, st2) := by
  cases t with
  | user =>
    refine ⟨_, rfl, ?_⟩
    rw [handle_global_scoped_read]
    simp [roleSubmap, roleKey, mfind_mset_self, jsTrim_nyx]
  | char =>
    refine ⟨_, rfl, ?_⟩
    rw [handle_global_scoped_read]
    simp [roleSubmap, roleKey, mfind_mset_self, jsTrim_nyx]

theorem roundtrip_char_user (env : Env) (st : St) :
    ∃ st2, handleNickname .user (some "Nyx") (some "char") false env st =
        .ok ({ result := some { context := .CHAR, name := some "Nyx" }, warned := false }, st2) ∧
      handleNickname .user none (some "char") false env st2 =
        .ok ({ result := some { context := .CHAR, name := some "Nyx" }, warned := false }, st2) := by
  refine ⟨_, rfl, ?_⟩
  rw [handle_char_scoped_read]
  simp [charScopeRaw, mfind_mset_self, jsTrim_nyx]

/-- C1: evaluation of the code at the failing input. With persona P, active
character C, an empty chat mapping, the global chars entry C mapped to Glob,
and the char-level mapping C mapped to personas P mapped to Bar, the unscoped
read for role char returns the CHAR-tagged result carrying Bar, the persona
nickname scoped to C. The claim (and the spec) say the CHAR scope never
supplies a char-role result, so this read should have returned the GLOBAL
value Glob. -/
theorem c1_char_read_returns_persona_char_nickname :
    handleNickname .char none none false env1 stCharScoped =
      .ok ({ result := some { context := .CHAR, name := some "Bar" }, warned := false },
           stCharScoped) := by
  rfl

/-- C3: firing the rename notification A to B on the state with
global.chars A mapped to Foo, char-level A holding personas P mapped to Bar,
and a loaded conversation whose chars map A to Baz moves every mapping to
key B, deletes every A entry, persists the conversation (chat save counter
up by one), and in general triggers exactly one account-level settings save
regardless of whether anything matched. -/
theorem c3_rename_migration :
    (renameHandler "A" "B"
        { settings := { char := [("A", { personas := [("P", "Bar")] })],
                        global := { personas := [], chars := [("A", "Foo")] } },
          chatNicknames := some { personas := [], chars := [("A", "Baz")] },
          chatSaves := 0, settingsSaves := 0 } =
      { settings := { char := [("B", { personas := [("P", "Bar")] })],
                      global := { personas := [], chars := [("B", "Foo")] } },
        chatNicknames := some { personas := [], chars := [("B", "Baz")] },
        chatSaves := 1, settingsSaves := 1 }) ∧
    ∀ (oldKey newKey : String) (st : St),
      (renameHandler oldKey newKey st).settingsSaves = st.settingsSaves + 1 := by
  constructor
  · rfl
  · intro oldKey newKey st
    rfl

/-- C4 counterexample: the scope token none is not rejected. A call with
scope none and a non-empty value does not fail with an InvalidScope error;
it succeeds, mutates nothing and returns the NONE default result, because
the validation accepts every member of the ContextLevel enum and none is
one of them. -/
theorem c4_none_scope_is_not_rejected :
    handleNickname .user (some "x") (some "none") false env1 emptySt =
      .ok ({ result := some { context := .NONE, name := some "User" }, warned := false },
           emptySt) := by
  rfl

/-- C5: the historical-conversation rename handler leaves the process-wide
state (settings and both persistence counters) exactly unchanged for every
input, and on a conversation whose mapping has chars A mapped to Baz it
moves the entry to B inside the passed structure only. -/
theorem c5_past_rename_no_persistence :
    (∀ (oldKey newKey : String) (st : St) (chat : List PastChatEntry),
        (pastRenameHandler oldKey newKey st chat).1 = st) ∧
    pastRenameHandler "A" "B" emptySt pastChatA = (emptySt, pastChatB) := by
  constructor
  · intro oldKey newKey st chat
    rcases chat with _ | ⟨⟨cm⟩, rest⟩
    · rfl
    rcases cm with _ | ⟨nn⟩
    · rfl
    rcases nn with _ | m
    · rfl
    rcases htf : tfind m.chars oldKey with _ | v
    · simp [pastRenameHandler, htf]
    · simp [pastRenameHandler, htf]
  · rfl

/-- C6: for every value and reset flag, a call with role char and scope char
that attempts to set or reset fails softly: it fires the warning, returns
the absent result, and leaves the whole state (mappings and persistence
counters) unchanged. -/
theorem c6_char_scope_char_role_soft_fail (v0 : Option String) (reset : Bool)
    (env : Env) (st : St)
    (h : (normValue v0).isSome = true ∨ reset = true) :
    handleNickname .char v0 (some "char") reset env st =
      .ok ({ result := none, warned := true }, st) := by
  rcases h with h | h
  · simp [handleNickname, charStep, ctxTruthy, contextLevelValues, h]
  · simp [handleNickname, charStep, ctxTruthy, contextLevelValues, h]

/-- C6 witness: the soft failure at the concrete input role char, value X,
scope char on the sample environment and empty state. -/
theorem c6_char_scope_char_role_soft_fail_witness :
    handleNickname .char (some "X") (some "char") false env1 emptySt =
      .ok ({ result := none, warned := true }, emptySt) :=
  c6_char_scope_char_role_soft_fail (some "X") false env1 emptySt (Or.inl (by decide))

/-- C8 counterexample: a pure unscoped read on a state with no conversation
nickname mapping creates the empty mapping: the metadata entry goes from
absent to present, so the conversation metadata is not exactly as it was
before the call. -/
theorem c8_pure_read_creates_chat_mapping :
    handleNickname .user none none false env1 emptySt =
      .ok ({ result := some { context := .NONE, name := some "User" }, warned := false },
           { emptySt with chatNicknames := some emptyMappings }) ∧
    emptySt.chatNicknames = none := by
  constructor
  · rfl
  · rfl

/-- C4 amended: a scope token outside the ContextLevel enum values fails
with the unknown-context error, a set or reset without a scope fails with
the no-context error (both before any mutation), but the token none is
accepted by the validation: it skips every scope branch and returns the
NONE default result with the state fully unchanged, even when a value or
reset was supplied. -/
theorem c4_scope_validation :
    (∀ (role : Role) (v0 : Option String) (reset : Bool) (env : Env) (st : St) (s : String),
        s ≠ "" → ¬ s ∈ contextLevelValues →
        handleNickname role v0 (some s) reset env st = .error (.unknownContext s)) ∧
    (∀ (role : Role) (v0 : Option String) (reset : Bool) (env : Env) (st : St),
        (normValue v0).isSome = true ∨ reset = true →
        handleNickname role v0 none reset env st = .error .setWithoutContext) ∧
    (∀ (role : Role) (v0 : Option String) (reset : Bool) (env : Env) (st : St),
        handleNickname role v0 (some "none") reset env st =
          .ok ({ result := some { context := .NONE, name := some (defaultName role env) },
                 warned := false }, st)) := by
  refine ⟨?_, ?_, ?_⟩
  · intro role v0 reset env st s hne hmem
    simp [handleNickname, ctxTruthy, hne, hmem]
  · intro role v0 reset env st h
    rcases h with h | h <;> simp [handleNickname, ctxTruthy, h]
  · intro role v0 reset env st
    simp [handleNickname, ctxTruthy, contextLevelValues]

/-- C4 witness: both validation errors at concrete inputs. -/
theorem c4_scope_validation_witness :
    handleNickname .user none (some "bogus") false env1 emptySt =
        .error (.unknownContext "bogus") ∧
      handleNickname .user (some "x") none false env1 emptySt =
        .error .setWithoutContext :=
  ⟨c4_scope_validation.1 .user none false env1 emptySt "bogus" (by decide) (by decide),
   c4_scope_validation.2.1 .user (some "x") false env1 emptySt (Or.inl (by decide))⟩

/-- C8 amended: a pure read ensures the conversation nickname mapping
exists whenever the chat branch runs (unscoped or chat scope), creating
the empty mapping if it was absent, and changes nothing else: the state
after an unscoped or chat-scoped pure read is exactly the input state
with the chat mapping defaulted, and char-scoped and global-scoped pure
reads return the input state exactly; no persistence counter moves. -/
theorem c8_reads_only_ensure_chat_mapping :
    ∀ (role : Role) (env : Env) (st : St),
      (∃ out, handleNickname role none none false env st = .ok (out, chatEnsure st)) ∧
      (∃ out, handleNickname role none (some "chat") false env st = .ok (out, chatEnsure st)) ∧
      (∃ out, handleNickname role none (some "char") false env st = .ok (out, st)) ∧
      (∃ out, handleNickname role none (some "global") false env st = .ok (out, st)) := by
  intro role env st
  exact ⟨handle_unscoped_read role env st,
         ⟨_, handle_chat_scoped_read role env st⟩,
         ⟨_, handle_char_scoped_read role env st⟩,
         ⟨_, handle_global_scoped_read role env st⟩⟩

/-- C9 counterexample: with no active character, a set of role char at
global scope succeeds with no warning and stores the nickname under the
JavaScript-coerced property key undefined, so a mapping does end up keyed
by the absent identity and no MissingIdentity failure is reported. -/
theorem c9_write_stores_under_undefined_key :
    handleNickname .char (some "Nyx") (some "global") false envNoChar emptySt =
      .ok ({ result := some { context := .GLOBAL, name := some "Nyx" }, warned := false },
           { emptySt with
               settings := { char := [],
                             global := { personas := [], chars := [("undefined", "Nyx")] } },
               settingsSaves := 1 }) := by
  rfl

/-- C10 counterexample: two rename inputs refute the claim as stated. An
entry that exists under the old key with the empty-string value is not
migrated at all (the truthiness check skips it), and a rename whose old and
new keys coincide deletes the existing entry outright instead of leaving it
written under the new key. -/
theorem c10_rename_counterexamples :
    (renameHandler "A" "B"
        { settings := { char := [], global := { personas := [], chars := [("A", "")] } },
          chatNicknames := none, chatSaves := 0, settingsSaves := 0 } =
      { settings := { char := [], global := { personas := [], chars := [("A", "")] } },
        chatNicknames := none, chatSaves := 0, settingsSaves := 1 }) ∧
    (renameHandler "A" "A"
        { settings := { char := [], global := { personas := [], chars := [("A", "x")] } },
          chatNicknames := none, chatSaves := 0, settingsSaves := 0 } =
      { settings := { char := [], global := { personas := [], chars := [] } },
        chatNicknames := none, chatSaves := 0, settingsSaves := 1 }) := by
  constructor
  · rfl
  · rfl

/-- C9 amended: with no active character, a pure read for role char misses
and returns the NONE default (no exception), provided nothing is stored
under the JavaScript-coerced key undefined; and a global-scope set for role
char succeeds without any warning, storing the trimmed value under the
literal key undefined and triggering one settings save: the code has no
MissingIdentity guard. -/
theorem c9_missing_character_key :
    (∀ (env : Env) (st : St),
        env.charKey = none →
        mfind st.settings.global.chars "undefined" = none →
        mfind st.settings.char "undefined" = none →
        (∀ m, st.chatNicknames = some m → mfind m.chars "undefined" = none) →
        handleNickname .char none none false env st =
          .ok ({ result := some { context := .NONE, name := some env.name2 }, warned := false },
               chatEnsure st)) ∧
    (∀ (env : Env) (st : St) (w v : String),
        env.charKey = none → normValue (some w) = some v →
        handleNickname .char (some w) (some "global") false env st =
          .ok ({ result := some { context := .GLOBAL, name := some v }, warned := false },
               { st with
                   settings := { st.settings with
                     global := { st.settings.global with
                       chars := mset st.settings.global.chars "undefined" v } },
                   settingsSaves := st.settingsSaves + 1 })) := by
  constructor
  · intro env st hck h1 h2 h3
    rcases hchat : st.chatNicknames with _ | m
    · simp [handleNickname, chatStep, charStep, globalStep, chatEnsure, ctxTruthy, normValue,
            roleKey, keyOf, hck, hchat, h1, h2, emptyMappings, mfind, tfind, defaultName]
    · have hm := h3 m hchat
      simp [handleNickname, chatStep, charStep, globalStep, chatEnsure, ctxTruthy, normValue,
            roleKey, keyOf, hck, hchat, h1, h2, hm, tfind, defaultName]
  · intro env st w v hck hnv
    simp [handleNickname, globalStep, ctxTruthy, contextLevelValues, hnv, roleKey, keyOf, hck]

/-- C9 witness: the read miss and the undefined-keyed write at concrete
inputs with no active character. -/
theorem c9_missing_character_key_witness :
    handleNickname .char none none false envNoChar emptySt =
        .ok ({ result := some { context := .NONE, name := some "Char" }, warned := false },
             chatEnsure emptySt) ∧
      handleNickname .char (some "Nyx") (some "global") false envNoChar emptySt =
        .ok ({ result := some { context := .GLOBAL, name := some "Nyx" }, warned := false },
             { emptySt with
                 settings := { char := [],
                               global := { personas := [], chars := [("undefined", "Nyx")] } },
                 settingsSaves := 1 }) :=
  ⟨c9_missing_character_key.1 envNoChar emptySt rfl rfl rfl
     (fun _ hm => Option.noConfusion hm),
   c9_missing_character_key.2 envNoChar emptySt "Nyx" "Nyx" rfl (by decide)⟩

/-- C10 amended: for a rename with distinct keys, in each string-valued
mapping a non-empty entry under the old key is moved to the new key,
overwriting whatever was stored there, and the old binding is deleted;
when the old key holds no non-empty entry the mapping is left untouched
(in particular an empty-string entry is not migrated); the per-character
sub-map moves whenever the old key is present at all; and both the
loaded-chat handler and the historical-chat handler apply exactly this
migration to their respective mappings. -/
theorem c10_rename_moves_entries (oldKey newKey : String) (hne : oldKey ≠ newKey) :
    (∀ (m : AMap String) (v : String), tfind m oldKey = some v →
        mfind (migrateChars oldKey newKey m) newKey = some v ∧
        mfind (migrateChars oldKey newKey m) oldKey = none) ∧
    (∀ m : AMap String, tfind m oldKey = none → migrateChars oldKey newKey m = m) ∧
    (∀ (cm : AMap CharEntry) (e : CharEntry), mfind cm oldKey = some e →
        mfind (migrateCharMap oldKey newKey cm) newKey = some e ∧
        mfind (migrateCharMap oldKey newKey cm) oldKey = none) ∧
    (∀ cm : AMap CharEntry, mfind cm oldKey = none → migrateCharMap oldKey newKey cm = cm) ∧
    (∀ st : St,
        (renameHandler oldKey newKey st).settings.global.chars =
            migrateChars oldKey newKey st.settings.global.chars ∧
          (renameHandler oldKey newKey st).settings.char =
            migrateCharMap oldKey newKey st.settings.char) ∧
    (∀ (st : St) (m : NicknameMappings), st.chatNicknames = some m →
        (renameHandler oldKey newKey st).chatNicknames =
          some { m with chars := migrateChars oldKey newKey m.chars }) ∧
    (∀ (st : St) (m : NicknameMappings) (rest : List PastChatEntry),
        (pastRenameHandler oldKey newKey st (pastEntry m :: rest)).2 =
          pastEntry { m with chars := migrateChars oldKey newKey m.chars } :: rest) := by
  refine ⟨?_, ?_, ?_, ?_, ?_, ?_, ?_⟩
  · intro m v h
    have hm : migrateChars oldKey newKey m = merase (mset m newKey v) oldKey := by
      simp [migrateChars, h]
    constructor
    · rw [hm, mfind_merase_ne _ _ _ (Ne.symm hne)]
      exact mfind_mset_self _ _ _
    · rw [hm]
      exact mfind_merase_self _ _
  · intro m h
    simp [migrateChars, h]
  · intro cm e h
    have hm : migrateCharMap oldKey newKey cm = merase (mset cm newKey e) oldKey := by
      simp [migrateCharMap, h]
    constructor
    · rw [hm, mfind_merase_ne _ _ _ (Ne.symm hne)]
      exact mfind_mset_self _ _ _
    · rw [hm]
      exact mfind_merase_self _ _
  · intro cm h
    simp [migrateCharMap, h]
  · intro st
    exact ⟨rfl, rfl⟩
  · intro st m hm
    rcases htf : tfind m.chars oldKey with _ | v
    · simp [renameHandler, hm, htf, migrateChars]
    · simp [renameHandler, hm, htf, migrateChars]
  · intro st m rest
    rcases htf : tfind m.chars oldKey with _ | v
    · simp [pastRenameHandler, pastEntry, migrateChars, htf]
    · simp [pastRenameHandler, pastEntry, migrateChars, htf]

/-- C10 witness: the migration applied to the singleton map A mapped to
Foo under the rename A to B. -/
theorem c10_rename_moves_entries_witness :
    mfind (migrateChars "A" "B" [("A", "Foo")]) "B" = some "Foo" ∧
      mfind (migrateChars "A" "B" [("A", "Foo")]) "A" = none :=
  (c10_rename_moves_entries "A" "B" (by decide)).1 [("A", "Foo")] "Foo" (by decide)

/-- C2: for every role and every scope valid for that role, setting the
nickname Nyx at that scope and then reading at the same scope in the same
environment returns the result tagged with that scope and carrying Nyx
from the second call; in this model every successful call returns the
tagged result shape (an optional NicknameResult), never a bare string. -/
theorem c2_set_then_read_roundtrip (role : Role) (s : String) (env : Env) (st : St)
    (h : validScopeFor role s) :
    ∃ st2, handleNickname role (some "Nyx") (some s) false env st =
        .ok ({ result := some { context := scopeLevel s, name := some "Nyx" },
               warned := false }, st2) ∧
      handleNickname role none (some s) false env st2 =
        .ok ({ result := some { context := scopeLevel s, name := some "Nyx" },
               warned := false }, st2) := by
  rcases h with ⟨hr, hs⟩ | ⟨hr, hs⟩
  · subst hr
    simp only [List.mem_cons, List.not_mem_nil, or_false] at hs
    rcases hs with rfl | rfl | rfl
    · exact roundtrip_global .user env st
    · exact roundtrip_char_user env st
    · exact roundtrip_chat .user env st
  · subst hr
    simp only [List.mem_cons, List.not_mem_nil, or_false] at hs
    rcases hs with rfl | rfl
    · exact roundtrip_global .char env st
    · exact roundtrip_chat .char env st

/-- C2 witness: the chat-scope round trip for the user role at the sample
environment and empty state. -/
theorem c2_set_then_read_roundtrip_witness :
    ∃ st2, handleNickname .user (some "Nyx") (some "chat") false env1 emptySt =
        .ok ({ result := some { context := scopeLevel "chat", name := some "Nyx" },
               warned := false }, st2) ∧
      handleNickname .user none (some "chat") false env1 st2 =
        .ok ({ result := some { context := scopeLevel "chat", name := some "Nyx" },
               warned := false }, st2) :=
  c2_set_then_read_roundtrip .user "chat" env1 emptySt (Or.inl ⟨rfl, by decide⟩)

theorem mfind_mem {α : Type} (m : AMap α) (k : String) (v : α) (h : mfind m k = some v) :
    (k, v) ∈ m := by
  induction m with
  | nil => simp [mfind] at h
  | cons q rest ih =>
    obtain ⟨k2, v2⟩ := q
    by_cases h2 : k2 = k
    · subst h2
      simp [mfind] at h
      subst h
      exact List.mem_cons_self _ _
    · simp [mfind, h2] at h
      exact List.mem_cons_of_mem _ (ih h)

theorem mem_mset_elim {α : Type} (p : String × α) (m : AMap α) (k : String) (v : α)
    (hp : p ∈ mset m k v) : p ∈ m ∨ p = (k, v) := by
  induction m with
  | nil =>
    simp [mset] at hp
    exact Or.inr hp
  | cons q rest ih =>
    obtain ⟨k2, v2⟩ := q
    by_cases h : k2 = k
    · subst h
      simp [mset] at hp
      rcases hp with rfl | hp
      · exact Or.inr rfl
      · exact Or.inl (List.mem_cons_of_mem _ hp)
    · simp only [mset, if_neg h, List.mem_cons] at hp
      rcases hp with rfl | hp
      · exact Or.inl (List.mem_cons_self _ _)
      · rcases ih hp with h2 | h2
        · exact Or.inl (List.mem_cons_of_mem _ h2)
        · exact Or.inr h2

theorem mem_merase_elim {α : Type} (p : String × α) (m : AMap α) (k : String)
    (hp : p ∈ merase m k) : p ∈ m := by
  induction m with
  | nil => simp [merase] at hp
  | cons q rest ih =>
    obtain ⟨k2, v2⟩ := q
    by_cases h : k2 = k
    · subst h
      simp only [merase, if_pos rfl] at hp
      exact List.mem_cons_of_mem _ (ih hp)
    · simp only [merase, if_neg h, List.mem_cons] at hp
      rcases hp with rfl | hp
      · exact List.mem_cons_self _ _
      · exact List.mem_cons_of_mem _ (ih hp)

theorem mem_mvals_mset_elim {α : Type} (x : α) (m : AMap α) (k : String) (v : α)
    (hx : x ∈ mvals (mset m k v)) : x ∈ mvals m ∨ x = v := by
  simp only [mvals, List.mem_map] at hx
  obtain ⟨p, hp, hpx⟩ := hx
  rcases mem_mset_elim p m k v hp with h | h
  · refine Or.inl ?_
    simp only [mvals, List.mem_map]
    exact ⟨p, h, hpx⟩
  · subst h
    exact Or.inr hpx.symm

theorem mem_mvals_merase_elim {α : Type} (x : α) (m : AMap α) (k : String)
    (hx : x ∈ mvals (merase m k)) : x ∈ mvals m := by
  simp only [mvals, List.mem_map] at hx ⊢
  obtain ⟨p, hp, hpx⟩ := hx
  exact ⟨p, mem_merase_elim p m k hp, hpx⟩

theorem mem_charMapStrings_iff (x : String) (m : AMap CharEntry) :
    x ∈ charMapStrings m ↔ ∃ k e, (k, e) ∈ m ∧ x ∈ mvals (CharEntry.personas e) := by
  simp only [charMapStrings, List.mem_flatten, List.mem_map]
  constructor
  · rintro ⟨l, ⟨⟨a, b⟩, hab, rfl⟩, hx⟩
    exact ⟨a, b, hab, hx⟩
  · rintro ⟨a, b, hab, hx⟩
    exact ⟨_, ⟨⟨a, b⟩, hab, rfl⟩, hx⟩

theorem mem_charMapStrings_mset_elim (x : String) (cm : AMap CharEntry) (k : String)
    (e : CharEntry) (hx : x ∈ charMapStrings (mset cm k e)) :
    x ∈ charMapStrings cm ∨ x ∈ mvals e.personas := by
  rcases (mem_charMapStrings_iff x _).mp hx with ⟨k2, e2, hmem, hx2⟩
  rcases mem_mset_elim (k2, e2) cm k e hmem with h | h
  · exact Or.inl ((mem_charMapStrings_iff x cm).mpr ⟨k2, e2, h, hx2⟩)
  · rw [Prod.mk.injEq] at h
    rw [← h.2]
    exact Or.inr hx2

theorem mem_charMapStrings_of_mfind (x : String) (cm : AMap CharEntry) (k : String)
    (e : CharEntry) (hfind : mfind cm k = some e) (hx : x ∈ mvals e.personas) :
    x ∈ charMapStrings cm :=
  (mem_charMapStrings_iff x cm).mpr ⟨k, e, mfind_mem cm k e hfind, hx⟩

theorem mem_storedStrings_parts (st : St) (y : String)
    (hy : (y ∈ mvals st.settings.global.personas ∨ y ∈ mvals st.settings.global.chars) ∨
        y ∈ charMapStrings st.settings.char) :
    y ∈ storedStrings st := by
  rcases hc : st.chatNicknames with _ | m <;>
    simp [storedStrings, hc, mappingsStrings, List.mem_append] <;> tauto

theorem mem_storedStrings_chatpart (st : St) (y : String)
    (hy : y ∈ mvals (st.chatNicknames.getD emptyMappings).personas ∨
        y ∈ mvals (st.chatNicknames.getD emptyMappings).chars) :
    y ∈ storedStrings st := by
  rcases hc : st.chatNicknames with _ | m
  · rw [hc] at hy
    simp [emptyMappings, mvals] at hy
  · rw [hc] at hy
    simp only [Option.getD_some] at hy
    simp [storedStrings, hc, mappingsStrings, List.mem_append]
    tauto

theorem chatStep_strings (t : Role) (value : Option String) (cg reset : Bool)
    (env : Env) (st : St) (x : String)
    (hx : x ∈ storedStrings (chatStep t value cg reset env st).2) :
    x ∈ storedStrings st ∨ value = some x := by
  have hchat : ∀ (M2 : NicknameMappings) (n : Nat),
      (∀ y, (y ∈ mvals M2.personas ∨ y ∈ mvals M2.chars) →
          (y ∈ mvals (st.chatNicknames.getD emptyMappings).personas ∨
           y ∈ mvals (st.chatNicknames.getD emptyMappings).chars) ∨ value = some y) →
      x ∈ storedStrings { st with chatNicknames := some M2, chatSaves := n } →
      x ∈ storedStrings st ∨ value = some x := by
    intro M2 n hM2 hy
    simp only [storedStrings, mappingsStrings, List.mem_append] at hy
    rcases hy with h | h
    · exact Or.inl (mem_storedStrings_parts st x h)
    · rcases h with h | h
      · rcases hM2 x (Or.inl h) with h2 | h2
        · exact Or.inl (mem_storedStrings_chatpart st x h2)
        · exact Or.inr h2
      · rcases hM2 x (Or.inr h) with h2 | h2
        · exact Or.inl (mem_storedStrings_chatpart st x h2)
        · exact Or.inr h2
  cases t with
  | user =>
    cases reset with
    | true =>
      refine hchat { personas := merase (st.chatNicknames.getD emptyMappings).personas
                       env.personaKey,
                     chars := (st.chatNicknames.getD emptyMappings).chars }
        (st.chatSaves + 1) ?_ hx
      intro y hy
      rcases hy with h | h
      · exact Or.inl (Or.inl (mem_mvals_merase_elim y _ _ h))
      · exact Or.inl (Or.inr h)
    | false =>
      rcases hv : value with _ | v
      · subst hv
        refine hchat (st.chatNicknames.getD emptyMappings) st.chatSaves (fun y hy => Or.inl hy) ?_
        have hx2 : x ∈ storedStrings (chatEnsure st) := by
          rw [← chatStep_read_snd Role.user cg env st]
          exact hx
        exact hx2
      · subst hv
        refine hchat { personas := mset (st.chatNicknames.getD emptyMappings).personas
                         env.personaKey v,
                       chars := (st.chatNicknames.getD emptyMappings).chars }
          (st.chatSaves + 1) ?_ hx
        intro y hy
        rcases hy with h | h
        · rcases mem_mvals_mset_elim y _ _ _ h with h2 | h2
          · exact Or.inl (Or.inl h2)
          · exact Or.inr (by rw [h2])
        · exact Or.inl (Or.inr h)
  | char =>
    cases reset with
    | true =>
      refine hchat { personas := (st.chatNicknames.getD emptyMappings).personas,
                     chars := merase (st.chatNicknames.getD emptyMappings).chars
                       (keyOf env.charKey) }
        (st.chatSaves + 1) ?_ hx
      intro y hy
      rcases hy with h | h
      · exact Or.inl (Or.inl h)
      · exact Or.inl (Or.inr (mem_mvals_merase_elim y _ _ h))
    | false =>
      rcases hv : value with _ | v
      · subst hv
        refine hchat (st.chatNicknames.getD emptyMappings) st.chatSaves (fun y hy => Or.inl hy) ?_
        have hx2 : x ∈ storedStrings (chatEnsure st) := by
          rw [← chatStep_read_snd Role.char cg env st]
          exact hx
        exact hx2
      · subst hv
        refine hchat { personas := (st.chatNicknames.getD emptyMappings).personas,
                       chars := mset (st.chatNicknames.getD emptyMappings).chars
                         (keyOf env.charKey) v }
          (st.chatSaves + 1) ?_ hx
        intro y hy
        rcases hy with h | h
        · exact Or.inl (Or.inl h)
        · rcases mem_mvals_mset_elim y _ _ _ h with h2 | h2
          · exact Or.inl (Or.inr h2)
          · exact Or.inr (by rw [h2])

theorem charStep_strings (t : Role) (value : Option String) (cg reset : Bool)
    (env : Env) (st : St) (x : String)
    (hx : x ∈ storedStrings (charStep t value cg reset env st).2) :
    x ∈ storedStrings st ∨ value = some x := by
  have hchar : ∀ (CH2 : AMap CharEntry) (n : Nat),
      (∀ y, y ∈ charMapStrings CH2 → y ∈ charMapStrings st.settings.char ∨ value = some y) →
      x ∈ storedStrings
          { st with
            settings := { st.settings with char := CH2 },
            settingsSaves := n } →
      x ∈ storedStrings st ∨ value = some x := by
    intro CH2 n hch hy
    simp only [storedStrings, mappingsStrings, List.mem_append] at hy
    rcases hy with ((h | h) | h) | h
    · exact Or.inl (mem_storedStrings_parts st x (Or.inl (Or.inl h)))
    · exact Or.inl (mem_storedStrings_parts st x (Or.inl (Or.inr h)))
    · rcases hch x h with h2 | h2
      · exact Or.inl (mem_storedStrings_parts st x (Or.inr h2))
      · exact Or.inr h2
    · refine Or.inl ?_
      simp only [storedStrings, mappingsStrings, List.mem_append]
      tauto
  by_cases hrej : t = Role.char ∧ ((Option.isSome value) = true ∨ reset = true)
  · have hsnd : (charStep t value cg reset env st).2 = st := by
      unfold charStep
      rw [if_pos hrej]
    rw [hsnd] at hx
    exact Or.inl hx
  · cases reset with
    | true =>
      rcases hf : mfind st.settings.char (keyOf env.charKey) with _ | e
      · have hsnd : (charStep t value cg true env st).2 =
            { st with
              settings := { st.settings with char := st.settings.char },
              settingsSaves := st.settingsSaves + 1 } := by
          unfold charStep
          rw [if_neg hrej]
          simp [hf]
        rw [hsnd] at hx
        exact hchar st.settings.char _ (fun y hy => Or.inl hy) hx
      · have hsnd : (charStep t value cg true env st).2 =
            { st with
              settings := { st.settings with char := mset st.settings.char (keyOf env.charKey) { personas := merase e.personas env.personaKey } },
              settingsSaves := st.settingsSaves + 1 } := by
          unfold charStep
          rw [if_neg hrej]
          simp [hf]
        rw [hsnd] at hx
        refine hchar _ _ ?_ hx
        intro y hy
        rcases mem_charMapStrings_mset_elim y _ _ _ hy with h2 | h2
        · exact Or.inl h2
        · exact Or.inl (mem_charMapStrings_of_mfind y _ _ _ hf (mem_mvals_merase_elim y _ _ h2))
    | false =>
      rcases hv : value with _ | v
      · subst hv
        rw [charStep_read_snd t cg env st] at hx
        exact Or.inl hx
      · subst hv
        rcases hf : mfind st.settings.char (keyOf env.charKey) with _ | e
        · have hsnd : (charStep t (some v) cg false env st).2 =
              { st with
                settings := { st.settings with char := mset st.settings.char (keyOf env.charKey) { personas := mset ([] : AMap String) env.personaKey v } },
                settingsSaves := st.settingsSaves + 1 } := by
            unfold charStep
            rw [if_neg hrej]
            simp [hf]
          rw [hsnd] at hx
          refine hchar _ _ ?_ hx
          intro y hy
          rcases mem_charMapStrings_mset_elim y _ _ _ hy with h2 | h2
          · exact Or.inl h2
          · rcases mem_mvals_mset_elim y _ _ _ h2 with h3 | h3
            · simp [mvals] at h3
            · exact Or.inr (by rw [h3])
        · have hsnd : (charStep t (some v) cg false env st).2 =
              { st with
                settings := { st.settings with char := mset st.settings.char (keyOf env.charKey) { personas := mset e.personas env.personaKey v } },
                settingsSaves := st.settingsSaves + 1 } := by
            unfold charStep
            rw [if_neg hrej]
            simp [hf]
          rw [hsnd] at hx
          refine hchar _ _ ?_ hx
          intro y hy
          rcases mem_charMapStrings_mset_elim y _ _ _ hy with h2 | h2
          · exact Or.inl h2
          · rcases mem_mvals_mset_elim y _ _ _ h2 with h3 | h3
            · exact Or.inl (mem_charMapStrings_of_mfind y _ _ _ hf h3)
            · exact Or.inr (by rw [h3])

theorem globalStep_strings (t : Role) (value : Option String) (cg reset : Bool)
    (env : Env) (st : St) (x : String)
    (hx : x ∈ storedStrings (globalStep t value cg reset env st).2) :
    x ∈ storedStrings st ∨ value = some x := by
  have hglob : ∀ (G2 : NicknameMappings) (n : Nat),
      (∀ y, (y ∈ mvals G2.personas ∨ y ∈ mvals G2.chars) →
          (y ∈ mvals st.settings.global.personas ∨ y ∈ mvals st.settings.global.chars) ∨
            value = some y) →
      x ∈ storedStrings
          { st with
            settings := { st.settings with global := G2 },
            settingsSaves := n } →
      x ∈ storedStrings st ∨ value = some x := by
    intro G2 n hG2 hy
    simp only [storedStrings, mappingsStrings, List.mem_append] at hy
    rcases hy with ((h | h) | h) | h
    · rcases hG2 x (Or.inl h) with h2 | h2
      · exact Or.inl (mem_storedStrings_parts st x (Or.inl h2))
      · exact Or.inr h2
    · rcases hG2 x (Or.inr h) with h2 | h2
      · exact Or.inl (mem_storedStrings_parts st x (Or.inl h2))
      · exact Or.inr h2
    · exact Or.inl (mem_storedStrings_parts st x (Or.inr h))
    · refine Or.inl ?_
      simp only [storedStrings, mappingsStrings, List.mem_append]
      tauto
  cases t with
  | user =>
    cases reset with
    | true =>
      refine hglob { personas := merase st.settings.global.personas env.personaKey,
                     chars := st.settings.global.chars } (st.settingsSaves + 1) ?_ hx
      intro y hy
      rcases hy with h | h
      · exact Or.inl (Or.inl (mem_mvals_merase_elim y _ _ h))
      · exact Or.inl (Or.inr h)
    | false =>
      rcases hv : value with _ | v
      · subst hv
        rw [globalStep_read_snd .user cg env st] at hx
        exact Or.inl hx
      · subst hv
        refine hglob { personas := mset st.settings.global.personas env.personaKey v,
                       chars := st.settings.global.chars } (st.settingsSaves + 1) ?_ hx
        intro y hy
        rcases hy with h | h
        · rcases mem_mvals_mset_elim y _ _ _ h with h2 | h2
          · exact Or.inl (Or.inl h2)
          · exact Or.inr (by rw [h2])
        · exact Or.inl (Or.inr h)
  | char =>
    cases reset with
    | true =>
      refine hglob { personas := st.settings.global.personas,
                     chars := merase st.settings.global.chars (keyOf env.charKey) }
        (st.settingsSaves + 1) ?_ hx
      intro y hy
      rcases hy with h | h
      · exact Or.inl (Or.inl h)
      · exact Or.inl (Or.inr (mem_mvals_merase_elim y _ _ h))
    | false =>
      rcases hv : value with _ | v
      · subst hv
        rw [globalStep_read_snd .char cg env st] at hx
        exact Or.inl hx
      · subst hv
        refine hglob { personas := st.settings.global.personas,
                       chars := mset st.settings.global.chars (keyOf env.charKey) v }
          (st.settingsSaves + 1) ?_ hx
        intro y hy
        rcases hy with h | h
        · exact Or.inl (Or.inl h)
        · rcases mem_mvals_mset_elim y _ _ _ h with h2 | h2
          · exact Or.inl (Or.inr h2)
          · exact Or.inr (by rw [h2])

theorem handle_strings (t : Role) (value0 ctx : Option String) (reset : Bool) (env : Env)
    (st : St) (out : HandleOut) (st2 : St)
    (hok : handleNickname t value0 ctx reset env st = .ok (out, st2)) (x : String)
    (hx : x ∈ storedStrings st2) :
    x ∈ storedStrings st ∨ normValue value0 = some x := by
  simp only [handleNickname] at hok
  by_cases h1 : ctxTruthy ctx = true ∧ ¬ (ctx.getD "") ∈ contextLevelValues
  · rw [if_pos h1] at hok
    exact absurd hok (by simp)
  rw [if_neg h1] at hok
  by_cases h2 : ¬ ctxTruthy ctx = true ∧ ((Option.isSome (normValue value0)) = true ∨ reset = true)
  · rw [if_pos h2] at hok
    exact absurd hok (by simp)
  rw [if_neg h2] at hok
  rcases hp1 : (if ctx = some "chat" ∨ ¬ ctxTruthy ctx = true then
      chatStep t (normValue value0) (ctxTruthy ctx) reset env st else (none, st)) with ⟨o1, stA⟩
  rw [hp1] at hok
  have hA : ∀ y, y ∈ storedStrings stA → y ∈ storedStrings st ∨ normValue value0 = some y := by
    intro y hy
    by_cases hc1 : ctx = some "chat" ∨ ¬ ctxTruthy ctx = true
    · rw [if_pos hc1] at hp1
      exact chatStep_strings t _ _ reset env st y (by rw [hp1]; exact hy)
    · rw [if_neg hc1] at hp1
      injection hp1 with ha hb
      rw [← hb] at hy
      exact Or.inl hy
  cases o1 with
  | some o =>
    injection hok with h
    injection h with ha hb
    rw [← hb] at hx
    exact hA x hx
  | none =>
    simp only [] at hok
    rcases hp2 : (if ctx = some "char" ∨ ¬ ctxTruthy ctx = true then
        charStep t (normValue value0) (ctxTruthy ctx) reset env stA else (none, stA)) with ⟨o2, stB⟩
    rw [hp2] at hok
    have hB : ∀ y, y ∈ storedStrings stB → y ∈ storedStrings st ∨ normValue value0 = some y := by
      intro y hy
      by_cases hc2 : ctx = some "char" ∨ ¬ ctxTruthy ctx = true
      · rw [if_pos hc2] at hp2
        rcases charStep_strings t _ _ reset env stA y (by rw [hp2]; exact hy) with h | h
        · exact hA y h
        · exact Or.inr h
      · rw [if_neg hc2] at hp2
        injection hp2 with ha hb
        rw [← hb] at hy
        exact hA y hy
    cases o2 with
    | some o =>
      injection hok with h
      injection h with ha hb
      rw [← hb] at hx
      exact hB x hx
    | none =>
      simp only [] at hok
      rcases hp3 : (if ctx = some "global" ∨ ¬ ctxTruthy ctx = true then
          globalStep t (normValue value0) (ctxTruthy ctx) reset env stB else (none, stB)) with
        ⟨o3, stC⟩
      rw [hp3] at hok
      have hC : ∀ y, y ∈ storedStrings stC → y ∈ storedStrings st ∨ normValue value0 = some y := by
        intro y hy
        by_cases hc3 : ctx = some "global" ∨ ¬ ctxTruthy ctx = true
        · rw [if_pos hc3] at hp3
          rcases globalStep_strings t _ _ reset env stB y (by rw [hp3]; exact hy) with h | h
          · exact hB y h
          · exact Or.inr h
        · rw [if_neg hc3] at hp3
          injection hp3 with ha hb
          rw [← hb] at hy
          exact hB y hy
      cases o3 with
      | some o =>
        injection hok with h
        injection h with ha hb
        rw [← hb] at hx
        exact hC x hx
      | none =>
        simp only [] at hok
        injection hok with h
        injection h with ha hb
        rw [← hb] at hx
        exact hC x hx

/-- C7: a call whose value is empty or whitespace-only behaves exactly like
the corresponding call without a value (in particular a pure read stores
nothing and saves nothing); and across every successful call, any nickname
string present afterwards was either already stored before the call or is
the trimmed, non-empty form of the value passed to that call, so no
operation ever stores an empty or whitespace-only nickname and every
stored value is the trimmed form of the value that was set. -/
theorem c7_trim_normalization :
    (∀ (t : Role) (w : String) (ctx : Option String) (env : Env) (st : St),
        jsTrim w = "" →
        handleNickname t (some w) ctx false env st = handleNickname t none ctx false env st) ∧
    (∀ (t : Role) (value0 ctx : Option String) (reset : Bool) (env : Env) (st : St)
        (out : HandleOut) (st2 : St),
        handleNickname t value0 ctx reset env st = .ok (out, st2) →
        ∀ x, x ∈ storedStrings st2 →
          x ∈ storedStrings st ∨ ∃ w, value0 = some w ∧ x = jsTrim w ∧ x ≠ "") := by
  constructor
  · intro t w ctx env st h
    have hv : (if jsTrim w = "" then none else some (jsTrim w)) = (none : Option String) := by
      simp [h]
    simp only [handleNickname, normValue, hv]
  · intro t value0 ctx reset env st out st2 hok x hx
    rcases handle_strings t value0 ctx reset env st out st2 hok x hx with h | h
    · exact Or.inl h
    · right
      rcases value0 with _ | w
      · simp [normValue] at h
      · refine ⟨w, rfl, ?_, ?_⟩
        · by_cases ht : jsTrim w = ""
          · simp [normValue, ht] at h
          · simp [normValue, ht] at h
            exact h.symm
        · by_cases ht : jsTrim w = ""
          · simp [normValue, ht] at h
          · simp [normValue, ht] at h
            rw [← h]
            exact ht

/-- C7 witness: a whitespace-only set equals the pure read at a concrete
input, and the nickname stored by a concrete set is the trimmed value. -/
theorem c7_trim_normalization_witness :
    (handleNickname .user (some "  ") none false env1 emptySt =
        handleNickname .user none none false env1 emptySt) ∧
      ("Nyx" ∈ storedStrings emptySt ∨
        ∃ w, (some " Nyx " : Option String) = some w ∧ "Nyx" = jsTrim w ∧ "Nyx" ≠ "") :=
  ⟨c7_trim_normalization.1 .user "  " none env1 emptySt (by decide),
   c7_trim_normalization.2 .user (some " Nyx ") (some "global") false env1 emptySt
     { result := some { context := .GLOBAL, name := some "Nyx" }, warned := false }
     { settings := { char := [], global := { personas := [("P", "Nyx")], chars := [] } },
       chatNicknames := none, chatSaves := 0, settingsSaves := 1 }
     rfl "Nyx" (by decide)⟩

end Nicknames
